import Mathlib

/-!
Shallow embedding of the clippy repository's core logic:

* `scaninc.py` — packs a root file plus its one-level-deep local includes
  into a `>>>>name\ncontent` archive stream (`scaninc_main`).
* `unpack.py`  — splits such a stream back into files using the regex
  `>>>>\s*([^>]+?)\s*\n(.*?)(?=\n>>>>|\Z)` (modelled character-exactly by
  `parseEntriesF`, including the backtracking of the greedy `\s*` pieces and
  the lazy name and content groups), then writes each entry to disk without
  ever creating directories (`processEntry` / `unpack_entries`).
* `clippy.py`  — provider resolution by model-name prefix
  (`get_provider_type_for_model`), the provider registry (`PROVIDER_TYPES`),
  the Anthropic payload construction (`anthropic_payload`) and the two
  response parsers (`openaiParser`, `anthropicParser`).

Python strings are modelled as `String`/`List Char` (ASCII fragment of `\s`),
JSON values as the inductive `J`, the filesystem as explicit maps.
-/

namespace Clippy

/- ===================== Python string primitives ===================== -/

/-- ASCII fragment of Python's whitespace class (used by `\s` and `str.strip`). -/
def isPyWs (c : Char) : Bool :=
  c == ' ' || c == '\t' || c == '\n' || c == '\r' || c == '\x0b' || c == '\x0c'

/-- Python `str.strip()`. -/
def pyStrip (s : String) : String :=
  String.mk (((s.data.dropWhile isPyWs).reverse.dropWhile isPyWs).reverse)

/-- Python `str.startswith(pre)`. -/
def pyStartsWith (s pre : String) : Bool := decide (pre.data <+: s.data)

/- ===================== scaninc.py ===================== -/

/-- The characters of the literal `#include` keyword. -/
def incKw : List Char := ['#', 'i', 'n', 'c', 'l', 'u', 'd', 'e']

/-- One match attempt of the regex `#include\s+"([^"]+)"` at the head of `l`:
returns the captured path and the rest of the input after the closing quote. -/
def matchIncludeAt (l : List Char) : Option (List Char × List Char) :=
  if l.take 8 = incKw then
    let r1 := l.drop 8
    let wn := (r1.takeWhile isPyWs).length
    if wn = 0 then none
    else
      match r1.drop wn with
      | '"' :: r3 =>
        let path := r3.takeWhile (fun c => c != '"')
        if path.isEmpty then none
        else
          match r3.drop path.length with
          | '"' :: r4 => some (path, r4)
          | _ => none
      | _ => none
  else none

/-- `re.findall(r'#include\s+"([^"]+)"', content)`: leftmost non-overlapping
matches, scanning position by position (fuel bounds the scan length). -/
def findIncludesF : Nat → List Char → List (List Char)
  | 0, _ => []
  | _ + 1, [] => []
  | f + 1, c :: rest =>
    match matchIncludeAt (c :: rest) with
    | some (path, after) => path :: findIncludesF f after
    | none => findIncludesF f rest

/-- `extract_non_system_includes` from scaninc.py. -/
def extract_non_system_includes (content : String) : List String :=
  (findIncludesF (content.data.length + 1) content.data).map String.mk

/-- Diagnostics written to stderr by scaninc.py while scanning includes. -/
inductive ScanWarn where
  | notFound (p : String)
  | dup (p : String)
deriving DecidableEq

/-- The include-processing loop of `scaninc.main`: for each referenced path,
resolve it via `abspath`, skip it when the resolved path was already emitted,
warn and omit it when unreadable, and otherwise emit it and remember the
resolved path.  `fs` maps resolved paths to file contents (`none` = unreadable). -/
def processIncludes (fs : String → Option String) (abspath : String → String) :
    List String → List String → List (String × String) × List ScanWarn
  | [], _ => ([], [])
  | p :: ps, seen =>
    let a := abspath p
    if a ∈ seen then
      let r := processIncludes fs abspath ps seen
      (r.1, ScanWarn.dup p :: r.2)
    else
      match fs a with
      | none =>
        let r := processIncludes fs abspath ps seen
        (r.1, ScanWarn.notFound a :: r.2)
      | some c =>
        let r := processIncludes fs abspath ps (a :: seen)
        ((p, c) :: r.1, r.2)

/-- `scaninc.main`: read the root file (fatal when unreadable), emit it first,
then process its non-system includes one level deep.  Returns the emitted
`(display name, content)` entries and the warnings. -/
def scaninc_main (fs : String → Option String) (abspath : String → String)
    (root : String) : Option (List (String × String) × List ScanWarn) :=
  match fs (abspath root) with
  | none => none
  | some c =>
    let r := processIncludes fs abspath (extract_non_system_includes c) [abspath root]
    some ((root, c) :: r.1, r.2)

/-- Spec-side description of the emission, following the spec's words: the
referenced files are emitted in the order their directives first appear, a
referenced path whose resolved absolute path was already emitted is skipped,
and a missing referenced file is omitted.  To be compared with the entry
component of the source-derived `processIncludes`. -/
def specPackEntries (fs : String → Option String) (abspath : String → String) :
    List String → List String → List (String × String)
  | [], _ => []
  | p :: ps, emitted =>
    if abspath p ∈ emitted then specPackEntries fs abspath ps emitted
    else
      match fs (abspath p) with
      | none => specPackEntries fs abspath ps emitted
      | some c => (p, c) :: specPackEntries fs abspath ps (abspath p :: emitted)

/- ======= Archive serialization (scaninc.py output format) ======= -/

/-- The four-character archive marker. -/
def mark : List Char := ['>', '>', '>', '>']

/-- One archive part: `f">>>>{name}\n{content}"`. -/
def renderPartL (p : List Char × List Char) : List Char :=
  mark ++ p.1 ++ '\n' :: p.2

/-- `"\n".join(output_parts)`. -/
def joinParts : List (List Char × List Char) → List Char
  | [] => []
  | [p] => renderPartL p
  | p :: q :: qs => renderPartL p ++ '\n' :: joinParts (q :: qs)

/-- Whether a rendered part ends with a newline (its content is empty or ends
with `'\n'`; the header itself ends with `'\n'`). -/
def partEndsNl (p : List Char × List Char) : Bool :=
  p.2.isEmpty || p.2.getLast? == some '\n'

/-- The full archive text: the joined parts, plus one final newline when the
last part does not already end with one (scaninc.py lines 94-99). -/
def renderL (parts : List (List Char × List Char)) : List Char :=
  match parts.getLast? with
  | none => []
  | some lastP => if partEndsNl lastP then joinParts parts else joinParts parts ++ ['\n']

/-- String-level wrapper of `renderL`. -/
def renderArchive (parts : List (String × String)) : String :=
  String.mk (renderL (parts.map fun p => (p.1.data, p.2.data)))

/- ===================== unpack.py: the regex parser ===================== -/

/-- Matching of the greedy `\s*\n` after the lazy name group: consume the
maximal whitespace run and require a `'\n'` inside it; the match ends at the
last `'\n'` of the run (the greedy `\s*` backtracks only as far as needed).
Returns the suffix after that newline, or `none` when the run holds no newline. -/
def runConsume : List Char → Option (List Char)
  | [] => none
  | c :: rest =>
    if isPyWs c then
      match runConsume rest with
      | some r => some r
      | none => if c = '\n' then some rest else none
    else none

/-- The lazy group `([^>]+?)` followed by `\s*\n`: grow the name one character
at a time (characters must differ from `'>'`), stopping as soon as the
remaining input starts with a whitespace run containing a newline.  Returns
the captured name and the suffix after the consumed newline. -/
def tryName : List Char → Option (List Char × List Char)
  | [] => none
  | c :: rest =>
    if c = '>' then none
    else
      match runConsume rest with
      | some r => some ([c], r)
      | none =>
        match tryName rest with
        | some (nm, r) => some (c :: nm, r)
        | none => none

/-- The greedy leading `\s*` of the header: try the longest whitespace run
first and backtrack one character at a time. -/
def tryW1 : Nat → List Char → Option (List Char × List Char)
  | 0, l => tryName l
  | k + 1, l =>
    match tryName (l.drop (k + 1)) with
    | some r => some r
    | none => tryW1 k l

/-- Matching of `\s*([^>]+?)\s*\n` right after the `>>>>` marker. -/
def matchHeader (l : List Char) : Option (List Char × List Char) :=
  tryW1 (l.takeWhile isPyWs).length l

/-- The lazy content group `(.*?)(?=\n>>>>|\Z)`: everything up to the first
newline that is immediately followed by the marker, or to the end of input.
Returns the content and the remaining input (starting at that newline). -/
def splitContent : List Char → List Char × List Char
  | [] => ([], [])
  | c :: rest =>
    if c = '\n' ∧ rest.take 4 = mark then ([], c :: rest)
    else
      let p := splitContent rest
      (c :: p.1, p.2)

/-- `re.finditer` over the whole stream: at each position try to match the
entry pattern (marker, header, content); on success emit the raw captured
name and the content and resume at the match end; otherwise advance one
character.  Fuel bounds the scan (one unit per consumed position). -/
def parseEntriesF : Nat → List Char → List (List Char × List Char)
  | 0, _ => []
  | _ + 1, [] => []
  | f + 1, c :: rest =>
    if (c :: rest).take 4 = mark then
      match matchHeader ((c :: rest).drop 4) with
      | some (cap, after) =>
        let p := splitContent after
        (cap, p.1) :: parseEntriesF f p.2
      | none => parseEntriesF f rest
    else parseEntriesF f rest

/-- The parsed `(group(1), group(2))` pairs of unpack.py's `finditer` loop. -/
def unpack_parse (s : String) : List (String × String) :=
  (parseEntriesF (s.data.length + 1) s.data).map fun p => (String.mk p.1, String.mk p.2)

/-- Whether the text contains a newline immediately followed by the marker
(the entry terminator of the unpack regex). -/
def hasNlMark : List Char → Bool
  | [] => false
  | c :: rest => if c = '\n' ∧ rest.take 4 = mark then true else hasNlMark rest

/-- A display name the regex recovers verbatim: nonempty, free of `'>'` and
newlines, neither starting nor ending with whitespace. -/
def goodNameB (n : List Char) : Bool :=
  !n.isEmpty &&
  n.all (fun c => !(c = '>' ∨ c = '\n')) &&
  (match n.head? with | some c => !isPyWs c | none => false) &&
  (match n.getLast? with | some c => !isPyWs c | none => false)

/-- Entry content the regex parser recovers verbatim: no line starting with
the marker, no newline inside the leading whitespace run (the header's `\s*`
would absorb it), and at least one non-whitespace character (otherwise the
header's `\s*` would swallow the entry separator). -/
def goodContentB (c : List Char) : Bool :=
  !hasNlMark c &&
  (c.takeWhile isPyWs).all (fun x => !(x = '\n')) &&
  c.any (fun x => !isPyWs x)

/-- Trailing-newline normalization (character level). -/
def ensureNlL (c : List Char) : List Char :=
  if c.getLast? = some '\n' then c else c ++ ['\n']

/-- Only the last entry of a parsed rendered archive may differ from its
packed content, by gaining a trailing newline (character level). -/
def normalizeLastL : List (List Char × List Char) → List (List Char × List Char)
  | [] => []
  | [p] => [(p.1, ensureNlL p.2)]
  | p :: q :: qs => p :: normalizeLastL (q :: qs)

/- ===================== unpack.py: writing entries ===================== -/

/-- Filesystem state seen by unpack.py: existing directories and files. -/
structure UFS where
  dirs : List String
  files : List (String × String)
deriving DecidableEq

/-- Association-list lookup for files. -/
def lookupFile : List (String × String) → String → Option String
  | [], _ => none
  | (q, d) :: rest, p => if q = p then some d else lookupFile rest p

/-- Association-list update (overwrite or create) for files. -/
def setFile : List (String × String) → String → String → List (String × String)
  | [], p, c => [(p, c)]
  | (q, d) :: rest, p, c => if q = p then (p, c) :: rest else (q, d) :: setFile rest p c

/-- `os.path.exists`: true for existing directories and existing files. -/
def pathExists (st : UFS) (p : String) : Bool :=
  p ∈ st.dirs || (lookupFile st.files p).isSome

/-- Per-entry diagnostics printed by unpack.py. -/
inductive UMsg where
  | emptyName
  | noComponents (filename : String)
  | dirMissing (dir : String) (filename : String)
  | unpacked (path : String)
  | writeError (filename : String) (path : String)
deriving DecidableEq

/-- Python `str.split(sep)` for a one-character separator. -/
def splitOnChar (sep : Char) : List Char → List (List Char)
  | [] => [[]]
  | x :: rest =>
    let r := splitOnChar sep rest
    if x = sep then [] :: r
    else
      match r with
      | [] => [[x]]
      | h :: t => (x :: h) :: t

/-- `filename.split(os.sep)` filtered of `''`, `'.'` and `'..'` components
(unpack.py lines 50-51, with `os.sep = "/"`). -/
def cleanComponents (filename : String) : List String :=
  ((splitOnChar '/' filename.data).map String.mk).filter
    fun part => !(part = "" || part = "." || part = "..")

/-- Content normalization on write: append a trailing newline when missing. -/
def ensureNlS (s : String) : String :=
  if s.data.getLast? = some '\n' then s else s ++ "\n"

/-- String-level trailing-newline normalization of the last entry. -/
def normalizeLast : List (String × String) → List (String × String)
  | [] => []
  | [p] => [(p.1, ensureNlS p.2)]
  | p :: q :: qs => p :: normalizeLast (q :: qs)

/-- The computed output directory of an entry (`None` when the entry is
skipped before the directory is computed). -/
def entryOutDir (e : String × String) : Option String :=
  let filename := pyStrip e.1
  if filename = "" then none
  else
    let clean := cleanComponents filename
    match clean.getLast? with
    | none => none
    | some _ =>
      some (if clean.dropLast = [] then "." else String.intercalate "/" clean.dropLast)

/-- The body of unpack.py's per-entry loop: strip the captured name, sanitize
the path components, skip (with a warning) entries with no valid components
or whose directory does not exist, and otherwise write the content (with a
trailing newline ensured) to `os.path.join(dir, final)`.  Never creates a
directory. -/
def processEntry (st : UFS) (e : String × String) : UFS × List UMsg :=
  let filename := pyStrip e.1
  if filename = "" then (st, [UMsg.emptyName])
  else
    let clean := cleanComponents filename
    match clean.getLast? with
    | none => (st, [UMsg.noComponents filename])
    | some final =>
      let dirParts := clean.dropLast
      let outDir := if dirParts = [] then "." else String.intercalate "/" dirParts
      if outDir ≠ "." ∧ pathExists st outDir = false then
        (st, [UMsg.dirMissing outDir filename])
      else
        let full := outDir ++ "/" ++ final
        if (outDir = "." || outDir ∈ st.dirs) && !(full ∈ st.dirs) then
          (⟨st.dirs, setFile st.files full (ensureNlS e.2)⟩, [UMsg.unpacked full])
        else (st, [UMsg.writeError filename full])

/-- The whole per-entry loop over the parsed entries. -/
def unpack_entries (st : UFS) : List (String × String) → UFS × List UMsg
  | [] => (st, [])
  | e :: es =>
    let r := processEntry st e
    let r2 := unpack_entries r.1 es
    (r2.1, r.2 ++ r2.2)

/-- `unpack_file`: parse the stream and process every matched entry. -/
def unpack_file_model (st : UFS) (content : String) : UFS × List UMsg :=
  unpack_entries st (unpack_parse content)

/- ===================== clippy.py: JSON values ===================== -/

/-- JSON values as decoded by `response.json()`. -/
inductive J where
  | null
  | bool (b : Bool)
  | num (n : Int)
  | str (s : String)
  | arr (elems : List J)
  | obj (fields : List (String × J))

/-- First-match lookup in a JSON object (`dict.get` with no default). -/
def jGet : List (String × J) → String → Option J
  | [], _ => none
  | (k, v) :: rest, key => if k = key then some v else jGet rest key

/-- `dict.get(k)` seen through an `is None` test: a JSON `null` value and a
missing key are indistinguishable. -/
def pyGetNonNull (o : List (String × J)) (k : String) : Option J :=
  match jGet o k with
  | some J.null => none
  | some v => some v
  | none => none

/-- Python truthiness of a JSON value. -/
def pyFalsy : J → Bool
  | J.null => true
  | J.bool b => !b
  | J.num n => n == 0
  | J.str s => s == ""
  | J.arr l => l.isEmpty
  | J.obj l => l.isEmpty

/- ===================== clippy.py: response parsers ===================== -/

/-- Failures raised by the response parsers: the explicit `API Error` raises
(carrying the server-provided error payload) versus the catch-all
`Could not parse ... response structure` re-raise. -/
inductive PFail where
  | api (payload : J)
  | parse

/-- `_openai_parser` (clippy.py lines 167-179). -/
def openaiParser (response : J) : Except PFail (Option J) :=
  match response with
  | J.obj fields =>
    match jGet fields "error" with
    | some (J.obj ef) =>
      Except.error (PFail.api ((jGet ef "message").getD (J.str "Unknown OpenAI API Error")))
    | some v => Except.error (PFail.api v)
    | none =>
      match (jGet fields "choices").getD (J.arr [J.obj []]) with
      | J.arr [] => Except.error PFail.parse
      | J.arr (choice :: _) =>
        match choice with
        | J.obj cf =>
          match (jGet cf "message").getD (J.obj []) with
          | J.obj mf =>
            match pyGetNonNull mf "content" with
            | some v => Except.ok (some v)
            | none => Except.ok (pyGetNonNull cf "text")
          | _ => Except.error PFail.parse
        | _ => Except.error PFail.parse
      | _ => Except.error PFail.parse
  | _ => Except.error PFail.parse

/-- The error payload the OpenAI-shaped parser reports for a given value of
the `error` key (the `message` field of a dict, the value itself otherwise). -/
def openaiErrPayload : J → J
  | J.obj ef => (jGet ef "message").getD (J.str "Unknown OpenAI API Error")
  | v => v

/-- The content the OpenAI-shaped parser extracts from the first choice:
`message.content`, falling back to `choice.text` when absent (or null). -/
def openaiContentOf (cf mf : List (String × J)) : Option J :=
  match pyGetNonNull mf "content" with
  | some v => some v
  | none => pyGetNonNull cf "text"

/-- The string contributed by one content block to the `"".join(...)` of
`_anthropic_parser` (empty for non-text blocks and missing text fields). -/
def blockText (b : J) : String :=
  match b with
  | J.obj bf =>
    match jGet bf "type" with
    | some (J.str t) =>
      if t = "text" then
        match jGet bf "text" with
        | some (J.str s) => s
        | _ => ""
      else ""
    | _ => ""
  | _ => ""

/-- The ordered concatenation of the text of all `type == "text"` blocks. -/
def concatTexts (bs : List J) : String :=
  bs.foldr (fun b acc => blockText b ++ acc) ""

/-- The `"".join(block.get("text", "") for block in blocks if
block.get("type") == "text")` of `_anthropic_parser`, with the runtime
failures it can raise: a non-dict block raises `AttributeError` and a
non-string text value makes `join` raise `TypeError`, both re-raised as the
catch-all parse failure. -/
def joinBlocks : List J → Except PFail String
  | [] => Except.ok ""
  | b :: bs =>
    match b with
    | J.obj bf =>
      match jGet bf "type" with
      | some (J.str t) =>
        if t = "text" then
          match jGet bf "text" with
          | none =>
            match joinBlocks bs with
            | Except.ok r => Except.ok ("" ++ r)
            | Except.error e => Except.error e
          | some (J.str s) =>
            match joinBlocks bs with
            | Except.ok r => Except.ok (s ++ r)
            | Except.error e => Except.error e
          | some _ => Except.error PFail.parse
        else joinBlocks bs
      | _ => joinBlocks bs
    | _ => Except.error PFail.parse

/-- Whether `response.get("type") == "error"`. -/
def anthropicIsError (fields : List (String × J)) : Bool :=
  match jGet fields "type" with
  | some (J.str t) => t == "error"
  | _ => false

/-- Block shapes on which the join of `_anthropic_parser` cannot raise. -/
def goodBlockB (b : J) : Bool :=
  match b with
  | J.obj bf =>
    match jGet bf "type" with
    | some (J.str t) =>
      if t = "text" then
        match jGet bf "text" with
        | none => true
        | some (J.str _) => true
        | some _ => false
      else true
    | _ => true
  | _ => false

/-- `_anthropic_parser` (clippy.py lines 205-214). -/
def anthropicParser (response : J) : Except PFail (Option String) :=
  match response with
  | J.obj fields =>
    if anthropicIsError fields then
      match jGet fields "error" with
      | none => Except.error (PFail.api (J.str "Unknown Anthropic Error"))
      | some (J.obj ef) =>
        Except.error (PFail.api ((jGet ef "message").getD (J.str "Unknown Anthropic Error")))
      | some _ => Except.error PFail.parse
    else
      match jGet fields "content" with
      | none => Except.ok none
      | some (J.arr []) => Except.ok none
      | some (J.arr bs) =>
        match joinBlocks bs with
        | Except.error e => Except.error e
        | Except.ok full => Except.ok (if full = "" then none else some full)
      | some v => if pyFalsy v then Except.ok none else Except.error PFail.parse
  | _ => Except.error PFail.parse

/- ===================== clippy.py: payload builders ===================== -/

/-- One conversation turn. -/
structure ChatMsg where
  role : String
  content : String
deriving DecidableEq

/-- The `for` loop of `_anthropic_payload` that collapses runs of
consecutive same-role messages, tracking `last_role`. -/
def collapseAux : Option String → List ChatMsg → List ChatMsg
  | _, [] => []
  | last, m :: ms =>
    if some m.role ≠ last then m :: collapseAux (some m.role) ms
    else collapseAux last ms

/-- The message-normalization of `_anthropic_payload`: keep only
user/assistant turns, pop leading assistant turns, collapse same-role runs. -/
def anthropicValid (messages : List ChatMsg) : List ChatMsg :=
  collapseAux none
    ((messages.filter fun m => m.role == "user" || m.role == "assistant").dropWhile
      fun m => m.role == "assistant")

/-- The first system message's content (`next(... if msg role == system)`). -/
def firstSystemPrompt (messages : List ChatMsg) : Option String :=
  (messages.find? fun m => m.role == "system").map ChatMsg.content

/-- Python truthiness of the optional system prompt string. -/
def pyTruthyOptStr : Option String → Bool
  | none => false
  | some s => s != ""

/-- `max_tokens or 1024` (note: `0` is falsy in Python). -/
def pyMaxTokens : Option Nat → Nat
  | none => 1024
  | some n => if n = 0 then 1024 else n

/-- The Anthropic-shaped request payload. -/
structure AnthropicPayload where
  model : String
  max_tokens : Nat
  messages : List ChatMsg
  temperature : ℚ
  system : Option String
deriving DecidableEq

/-- `_anthropic_payload` (clippy.py lines 184-203); the `raise ValueError`
is modelled as the `Except.error`. -/
def anthropic_payload (model : String) (messages : List ChatMsg)
    (max_tokens : Option Nat) (temperature : ℚ) : Except String AnthropicPayload :=
  let system_prompt := firstSystemPrompt messages
  let valid_messages := anthropicValid messages
  if valid_messages.isEmpty && pyTruthyOptStr system_prompt then
    Except.ok ⟨model, pyMaxTokens max_tokens, [⟨"user", "..."⟩], temperature, system_prompt⟩
  else if valid_messages.isEmpty then
    Except.error "No valid user messages found for Anthropic payload"
  else
    Except.ok ⟨model, pyMaxTokens max_tokens, valid_messages, temperature,
      if pyTruthyOptStr system_prompt then system_prompt else none⟩

/-- The OpenAI-shaped request payload. -/
structure OpenAIPayload where
  model : String
  messages : List ChatMsg
  temperature : ℚ
  max_tokens : Option Nat
deriving DecidableEq

/-- `_openai_payload` (clippy.py lines 162-165). -/
def openai_payload (model : String) (messages : List ChatMsg)
    (max_tokens : Option Nat) (temperature : ℚ) : OpenAIPayload :=
  ⟨model, messages, temperature, max_tokens⟩

/- ===================== clippy.py: provider registry ===================== -/

/-- `_openai_headers`. -/
def openaiHeaders (api_key : String) : List (String × String) :=
  [("Content-Type", "application/json"), ("Authorization", "Bearer " ++ api_key)]

/-- `_anthropic_headers`. -/
def anthropicHeaders (api_key : String) : List (String × String) :=
  [("x-api-key", api_key), ("anthropic-version", "2023-06-01"),
   ("content-type", "application/json")]

/-- A built request payload, provider-family shaped. -/
inductive PayloadResult where
  | openaiP (p : OpenAIPayload)
  | anthropicP (p : AnthropicPayload)

/-- `ProviderConfig` (clippy.py lines 149-155). -/
structure ProviderConfig where
  base_url : String
  header_factory : String → List (String × String)
  payload_factory : String → List ChatMsg → Option Nat → ℚ → Except String PayloadResult
  response_parse_fn : J → Except PFail (Option J)

/-- OpenAI payload factory wrapped in the common result type. -/
def openaiPayloadF (model : String) (msgs : List ChatMsg) (mt : Option Nat)
    (temp : ℚ) : Except String PayloadResult :=
  Except.ok (PayloadResult.openaiP (openai_payload model msgs mt temp))

/-- Anthropic payload factory wrapped in the common result type. -/
def anthropicPayloadF (model : String) (msgs : List ChatMsg) (mt : Option Nat)
    (temp : ℚ) : Except String PayloadResult :=
  (anthropic_payload model msgs mt temp).map PayloadResult.anthropicP

/-- The Anthropic parser with its result injected into the common type. -/
def anthropicParserJ (r : J) : Except PFail (Option J) :=
  (anthropicParser r).map fun o => o.map J.str

/-- `PROVIDER_TYPES` (clippy.py lines 217-221). -/
def PROVIDER_TYPES : List (String × ProviderConfig) :=
  [("openai", ⟨"https://api.openai.com/v1/chat/completions",
      openaiHeaders, openaiPayloadF, openaiParser⟩),
   ("google", ⟨"https://generativelanguage.googleapis.com/v1beta/models",
      openaiHeaders, openaiPayloadF, openaiParser⟩),
   ("anthropic", ⟨"https://api.anthropic.com/v1/messages",
      anthropicHeaders, anthropicPayloadF, anthropicParserJ⟩)]

/-- `PROVIDER_TYPES.get(provider_type)`. -/
def PROVIDER_TYPES_get (k : String) : Option ProviderConfig :=
  (PROVIDER_TYPES.find? fun p => p.1 = k).map Prod.snd

/-- `MODEL_PREFIX_TO_PROVIDER` (insertion order matters: iterated in order). -/
def MODEL_PREFIX_TO_PROVIDER : List (String × String) :=
  [("gpt-", "openai"), ("gemini-", "google"), ("claude-", "anthropic")]

/-- `DEFAULT_PROVIDER`. -/
def DEFAULT_PROVIDER : String := "openai"

/-- The prefix loop of `get_provider_type_for_model`; the boolean records
whether the fallback warning was emitted. -/
def providerGo (name : String) : List (String × String) → String × Bool
  | [] => (DEFAULT_PROVIDER, true)
  | (pre, pk) :: rest =>
    if pyStartsWith name pre then (pk, false) else providerGo name rest

/-- `get_provider_type_for_model` (clippy.py lines 225-229): the resolved
provider key plus whether the unknown-prefix warning was printed. -/
def get_provider_type_for_model (name : String) : String × Bool :=
  providerGo name MODEL_PREFIX_TO_PROVIDER

/-- The dispatch outcome of `ask_ai` (clippy.py lines 366-372): the
unknown-provider error return, the Google SDK special case, or the generic
HTTP path against the provider's base URL. -/
inductive AskDispatch where
  | unknownProvider
  | googleSdk
  | genericHttp (base_url : String)
deriving DecidableEq

/-- The provider dispatch in `ask_ai`. -/
def ask_ai_dispatch (provider_type : String) : AskDispatch :=
  match PROVIDER_TYPES_get provider_type with
  | none => AskDispatch.unknownProvider
  | some cfg =>
    if provider_type = "google" then AskDispatch.googleSdk
    else AskDispatch.genericHttp cfg.base_url

/-- Whether the dispatch hit the unknown-provider failure branch. -/
def AskDispatch.isUnknown : AskDispatch → Bool
  | AskDispatch.unknownProvider => true
  | _ => false

/- ===================================================================== -/
/- ============================ Theorems =============================== -/
/- ===================================================================== -/

/-- Two prefixes of the same list are comparable. -/
lemma prefix_total {α : Type} (l₁ l₂ l₃ : List α) (h₁ : l₁ <+: l₃) (h₂ : l₂ <+: l₃) :
    l₁ <+: l₂ ∨ l₂ <+: l₁ := by
  rcases Nat.le_total l₁.length l₂.length with hle | hle
  · left
    have e₁ := List.prefix_iff_eq_take.mp h₁
    have e₂ := List.prefix_iff_eq_take.mp h₂
    have e : l₁ = List.take l₁.length l₂ := by
      conv_lhs => rw [e₁]
      rw [e₂, List.take_take, Nat.min_eq_left hle]
    exact e ▸ List.take_prefix _ _
  · right
    have e₁ := List.prefix_iff_eq_take.mp h₁
    have e₂ := List.prefix_iff_eq_take.mp h₂
    have e : l₂ = List.take l₂.length l₁ := by
      conv_lhs => rw [e₂]
      rw [e₁, List.take_take, Nat.min_eq_left hle]
    exact e ▸ List.take_prefix _ _

/-- A model name cannot start with two incomparable prefixes at once. -/
lemma pyStartsWith_excl {name p q : String} (h : pyStartsWith name p = true)
    (h₁ : ¬ p.data <+: q.data) (h₂ : ¬ q.data <+: p.data) :
    pyStartsWith name q = false := by
  rw [pyStartsWith, decide_eq_false_iff_not]
  intro hq
  rw [pyStartsWith, decide_eq_true_eq] at h
  rcases prefix_total _ _ _ h hq with hh | hh
  · exact h₁ hh
  · exact h₂ hh

/-- C5: `resolve_provider_key` maps the `gpt-` prefix to `openai`, `gemini-`
to `google` and `claude-` to `anthropic` (first match wins, no warning), and
any name matching no prefix falls back to the default provider key `openai`
with a non-fatal warning. -/
theorem c5_provider_resolution (name : String) :
    (pyStartsWith name "gpt-" = true →
      get_provider_type_for_model name = ("openai", false)) ∧
    (pyStartsWith name "gemini-" = true →
      get_provider_type_for_model name = ("google", false)) ∧
    (pyStartsWith name "claude-" = true →
      get_provider_type_for_model name = ("anthropic", false)) ∧
    (pyStartsWith name "gpt-" = false → pyStartsWith name "gemini-" = false →
      pyStartsWith name "claude-" = false →
      get_provider_type_for_model name = ("openai", true)) := by
  refine ⟨fun h => ?_, fun h => ?_, fun h => ?_, fun h1 h2 h3 => ?_⟩
  · simp [get_provider_type_for_model, MODEL_PREFIX_TO_PROVIDER, providerGo, h]
  · have hg : pyStartsWith name "gpt-" = false :=
      pyStartsWith_excl h (by decide) (by decide)
    simp [get_provider_type_for_model, MODEL_PREFIX_TO_PROVIDER, providerGo, h, hg]
  · have hg : pyStartsWith name "gpt-" = false :=
      pyStartsWith_excl h (by decide) (by decide)
    have hm : pyStartsWith name "gemini-" = false :=
      pyStartsWith_excl h (by decide) (by decide)
    simp [get_provider_type_for_model, MODEL_PREFIX_TO_PROVIDER, providerGo, h, hg, hm]
  · simp [get_provider_type_for_model, MODEL_PREFIX_TO_PROVIDER, providerGo,
      DEFAULT_PROVIDER, h1, h2, h3]

/-- C5 witness: the resolution evaluated on concrete model names. -/
theorem c5_provider_resolution_witness :
    get_provider_type_for_model "gpt-4o" = ("openai", false) ∧
    get_provider_type_for_model "gemini-2.5-pro" = ("google", false) ∧
    get_provider_type_for_model "claude-3-opus" = ("anthropic", false) ∧
    get_provider_type_for_model "llama-3-70b" = ("openai", true) :=
  ⟨(c5_provider_resolution "gpt-4o").1 (by decide),
   (c5_provider_resolution "gemini-2.5-pro").2.1 (by decide),
   (c5_provider_resolution "claude-3-opus").2.2.1 (by decide),
   (c5_provider_resolution "llama-3-70b").2.2.2 (by decide) (by decide) (by decide)⟩

/-- Every resolved provider key is one of the three registry keys. -/
lemma provider_mem (name : String) :
    (get_provider_type_for_model name).1 = "openai" ∨
    (get_provider_type_for_model name).1 = "google" ∨
    (get_provider_type_for_model name).1 = "anthropic" := by
  simp only [get_provider_type_for_model, MODEL_PREFIX_TO_PROVIDER, providerGo,
    DEFAULT_PROVIDER]
  split_ifs <;> simp

/-- C10: the provider key obtained by prefix resolution is always present in
the provider registry, so the unknown-provider failure branch of `ask_ai` is
unreachable for resolved keys. -/
theorem c10_resolved_provider_known (name : String) :
    (PROVIDER_TYPES_get (get_provider_type_for_model name).1).isSome = true ∧
    (ask_ai_dispatch (get_provider_type_for_model name).1).isUnknown = false := by
  rcases provider_mem name with h | h | h <;> rw [h] <;> exact ⟨rfl, rfl⟩

/- ===================== C3: OpenAI-shaped parser ===================== -/

/-- C3 counterexample: an OpenAI-shaped response whose expected shape is
missing entirely (no `choices` key at all) makes the parser return a null
content without failing — the `[{}]` default swallows the missing key — so
the claim that a `ParseError` is raised whenever the shape is missing
entirely is false. -/
theorem c3_openai_parse_counterexample : openaiParser (J.obj []) = Except.ok none := rfl

/-- C3 (amended): an `error` key of any shape fails with an `ApiError`
carrying the server message (in particular `{"error": "rate limited"}`
carries the literal string); without it, a well-formed `choices` list yields
`choices[0].message.content` with fallback to `choices[0].text`; a `choices`
key that is present but empty fails with a `ParseError`; a `choices` key that
is absent entirely yields a null result (via the `[{}]` default), not a
`ParseError`. -/
theorem c3_openai_parse_amended (fields : List (String × J)) :
    (∀ v, jGet fields "error" = some v →
      openaiParser (J.obj fields) = Except.error (PFail.api (openaiErrPayload v))) ∧
    (openaiParser (J.obj [("error", J.str "rate limited")]) =
      Except.error (PFail.api (J.str "rate limited"))) ∧
    (∀ cs cf mf, jGet fields "error" = none →
      jGet fields "choices" = some (J.arr (J.obj cf :: cs)) →
      jGet cf "message" = some (J.obj mf) →
      openaiParser (J.obj fields) = Except.ok (openaiContentOf cf mf)) ∧
    (∀ cs cf, jGet fields "error" = none →
      jGet fields "choices" = some (J.arr (J.obj cf :: cs)) →
      jGet cf "message" = none →
      openaiParser (J.obj fields) = Except.ok (openaiContentOf cf [])) ∧
    (jGet fields "error" = none → jGet fields "choices" = some (J.arr []) →
      openaiParser (J.obj fields) = Except.error PFail.parse) ∧
    (jGet fields "error" = none → jGet fields "choices" = none →
      openaiParser (J.obj fields) = Except.ok none) := by
  refine ⟨fun v hv => ?_, rfl, fun cs cf mf he hc hm => ?_, fun cs cf he hc hm => ?_,
    fun he hc => ?_, fun he hc => ?_⟩
  · cases v <;> simp [openaiParser, hv, openaiErrPayload]
  · simp only [openaiParser, he, hc, hm, openaiContentOf, Option.getD_some]
    cases pyGetNonNull mf "content" <;> rfl
  · simp only [openaiParser, he, hc, hm, openaiContentOf, Option.getD_some,
      Option.getD_none]
    rfl
  · simp [openaiParser, he, hc]
  · simp only [openaiParser, he, hc, Option.getD_none]
    rfl

/-- C3 witness: the amended behaviours evaluated on concrete responses. -/
theorem c3_openai_parse_amended_witness :
    openaiParser (J.obj [("error", J.num 42)]) = Except.error (PFail.api (J.num 42)) ∧
    openaiParser (J.obj [("choices",
      J.arr [J.obj [("message", J.obj [("content", J.str "hi")])]])]) =
      Except.ok (some (J.str "hi")) ∧
    openaiParser (J.obj [("choices", J.arr [J.obj [("text", J.str "old-style")]])]) =
      Except.ok (some (J.str "old-style")) ∧
    openaiParser (J.obj [("choices", J.arr [])]) = Except.error PFail.parse ∧
    openaiParser (J.obj [("id", J.str "x")]) = Except.ok none :=
  ⟨(c3_openai_parse_amended [("error", J.num 42)]).1 (J.num 42) rfl,
   (c3_openai_parse_amended _).2.2.1 [] [("message", J.obj [("content", J.str "hi")])]
     [("content", J.str "hi")] rfl rfl rfl,
   (c3_openai_parse_amended _).2.2.2.1 [] [("text", J.str "old-style")] rfl rfl rfl,
   (c3_openai_parse_amended _).2.2.2.2.1 rfl rfl,
   (c3_openai_parse_amended [("id", J.str "x")]).2.2.2.2.2 rfl rfl⟩

/- ===================== C4: Anthropic payload edge case ===================== -/

/-- C4 counterexample: a message list consisting of a single system message
with empty content leaves no user/assistant messages after filtering, yet
construction fails with the `ValidationError` instead of substituting the
synthetic placeholder user message — the Python truthiness test
`if not valid_messages and system_prompt:` treats the empty system string as
absent. -/
theorem c4_system_only_counterexample :
    anthropic_payload "claude-3-opus" [⟨"system", ""⟩] none 1 =
      Except.error "No valid user messages found for Anthropic payload" := rfl

/-- C4 (amended): when no user/assistant messages survive filtering, a system
message with nonempty content yields exactly one synthetic placeholder user
message plus the supplied `system` field; with no system message, or a system
message whose content is empty (falsy), construction fails with the
`ValidationError`. -/
theorem c4_empty_filter_amended (model : String) (msgs : List ChatMsg)
    (mt : Option Nat) (temp : ℚ) (h : anthropicValid msgs = []) :
    (∀ s, firstSystemPrompt msgs = some s → s ≠ "" →
      anthropic_payload model msgs mt temp =
        Except.ok ⟨model, pyMaxTokens mt, [⟨"user", "..."⟩], temp, some s⟩) ∧
    (firstSystemPrompt msgs = none ∨ firstSystemPrompt msgs = some "" →
      anthropic_payload model msgs mt temp =
        Except.error "No valid user messages found for Anthropic payload") := by
  constructor
  · intro s hs hne
    simp [anthropic_payload, h, hs, pyTruthyOptStr, hne]
  · rintro (hs | hs) <;> simp [anthropic_payload, h, hs, pyTruthyOptStr]

/-- C4 witness: the amended behaviours evaluated on concrete message lists. -/
theorem c4_empty_filter_amended_witness :
    anthropic_payload "claude-3" [⟨"system", "sys"⟩] none 1 =
      Except.ok ⟨"claude-3", 1024, [⟨"user", "..."⟩], 1, some "sys"⟩ ∧
    anthropic_payload "claude-3" [⟨"assistant", "a"⟩] (some 5) 1 =
      Except.error "No valid user messages found for Anthropic payload" :=
  ⟨(c4_empty_filter_amended "claude-3" [⟨"system", "sys"⟩] none 1 rfl).1 "sys" rfl
     (by decide),
   (c4_empty_filter_amended "claude-3" [⟨"assistant", "a"⟩] (some 5) 1 rfl).2
     (Or.inl rfl)⟩

/- ===================== C6: Anthropic-shaped parser ===================== -/

/-- C6 counterexample: a response with `type == "error"` whose `error` field
is a plain string fails with the catch-all parse failure (the `.get` call on
the string raises `AttributeError` inside the raise expression), not with the
`ApiError`-shaped failure the claim requires. -/
theorem c6_anthropic_parse_counterexample :
    anthropicParser (J.obj [("type", J.str "error"), ("error", J.str "boom")]) =
      Except.error PFail.parse := rfl

/-- Appending to the empty string is the identity. -/
lemma str_nil_append (s : String) : "" ++ s = s := rfl

/-- The block join of `_anthropic_parser` succeeds and computes the ordered
concatenation of the text of the `type == "text"` blocks whenever every block
is a dict whose text field (for text blocks) is a string or absent. -/
lemma joinBlocks_good : ∀ bs : List J, bs.all goodBlockB = true →
    joinBlocks bs = Except.ok (concatTexts bs) := by
  intro bs
  induction bs with
  | nil => intro _; rfl
  | cons b rest ih =>
    intro h
    rw [List.all_cons, Bool.and_eq_true] at h
    obtain ⟨hb, hr⟩ := h
    have ihr := ih hr
    cases b with
    | obj bf =>
      cases hty : jGet bf "type" with
      | none =>
        simp only [joinBlocks, hty, concatTexts, List.foldr, blockText]
        rw [ihr]
        rfl
      | some tv =>
        cases tv with
        | str t =>
          by_cases htext : t = "text"
          · subst htext
            simp only [goodBlockB, hty, if_pos rfl] at hb
            cases htx : jGet bf "text" with
            | none =>
              simp [joinBlocks, hty, htx, ihr, concatTexts, blockText]
            | some xv =>
              cases xv <;> simp_all [joinBlocks, hty, htx, concatTexts, blockText]
          · simp only [joinBlocks, hty, if_neg htext, ihr, concatTexts, List.foldr,
              blockText, str_nil_append]
        | null =>
          simp only [joinBlocks, hty, concatTexts, List.foldr, blockText]
          rw [ihr]
          rfl
        | bool v =>
          simp only [joinBlocks, hty, concatTexts, List.foldr, blockText]
          rw [ihr]
          rfl
        | num v =>
          simp only [joinBlocks, hty, concatTexts, List.foldr, blockText]
          rw [ihr]
          rfl
        | arr v =>
          simp only [joinBlocks, hty, concatTexts, List.foldr, blockText]
          rw [ihr]
          rfl
        | obj v =>
          simp only [joinBlocks, hty, concatTexts, List.foldr, blockText]
          rw [ihr]
          rfl
    | null => simp [goodBlockB] at hb
    | bool v => simp [goodBlockB] at hb
    | num v => simp [goodBlockB] at hb
    | str v => simp [goodBlockB] at hb
    | arr v => simp [goodBlockB] at hb

/-- C6 (amended): a `type == "error"` response fails with an `ApiError`
carrying `error.message` when the `error` field is absent or an object (a
non-object `error` field fails with the catch-all parse failure instead);
otherwise the parser returns the ordered concatenation of the `text` of every
`type == "text"` content block (null when that concatenation is empty), and
an empty or absent `content` list yields a null result, not an error. -/
theorem c6_anthropic_parse_amended (fields : List (String × J)) :
    (anthropicIsError fields = true → jGet fields "error" = none →
      anthropicParser (J.obj fields) =
        Except.error (PFail.api (J.str "Unknown Anthropic Error"))) ∧
    (∀ ef, anthropicIsError fields = true → jGet fields "error" = some (J.obj ef) →
      anthropicParser (J.obj fields) =
        Except.error (PFail.api ((jGet ef "message").getD
          (J.str "Unknown Anthropic Error")))) ∧
    (anthropicIsError fields = false →
      (jGet fields "content" = none ∨ jGet fields "content" = some (J.arr [])) →
      anthropicParser (J.obj fields) = Except.ok none) ∧
    (∀ bs, anthropicIsError fields = false → jGet fields "content" = some (J.arr bs) →
      bs.all goodBlockB = true →
      anthropicParser (J.obj fields) =
        Except.ok (if concatTexts bs = "" then none else some (concatTexts bs))) := by
  refine ⟨fun he hv => ?_, fun ef he hv => ?_, fun he hc => ?_, fun bs he hc hg => ?_⟩
  · simp [anthropicParser, he, hv]
  · simp [anthropicParser, he, hv]
  · rcases hc with hc | hc <;> simp [anthropicParser, he, hc]
  · cases bs with
    | nil => simp [anthropicParser, he, hc, concatTexts]
    | cons b rest => simp [anthropicParser, he, hc, joinBlocks_good _ hg]

/-- C6 witness: the amended behaviours evaluated on concrete responses. -/
theorem c6_anthropic_parse_amended_witness :
    anthropicParser (J.obj [("type", J.str "error")]) =
      Except.error (PFail.api (J.str "Unknown Anthropic Error")) ∧
    anthropicParser (J.obj [("type", J.str "error"),
      ("error", J.obj [("message", J.str "overloaded")])]) =
      Except.error (PFail.api (J.str "overloaded")) ∧
    anthropicParser (J.obj [("content", J.arr [])]) = Except.ok none ∧
    anthropicParser (J.obj [("content", J.arr
      [J.obj [("type", J.str "text"), ("text", J.str "hi ")],
       J.obj [("type", J.str "tool_use")],
       J.obj [("type", J.str "text"), ("text", J.str "there")]])]) =
      Except.ok (some "hi there") :=
  ⟨(c6_anthropic_parse_amended [("type", J.str "error")]).1 rfl rfl,
   (c6_anthropic_parse_amended [("type", J.str "error"),
      ("error", J.obj [("message", J.str "overloaded")])]).2.1
     [("message", J.str "overloaded")] rfl rfl,
   (c6_anthropic_parse_amended [("content", J.arr [])]).2.2.1 rfl (Or.inr rfl),
   (c6_anthropic_parse_amended [("content", J.arr
      [J.obj [("type", J.str "text"), ("text", J.str "hi ")],
       J.obj [("type", J.str "tool_use")],
       J.obj [("type", J.str "text"), ("text", J.str "there")]])]).2.2.2
     [J.obj [("type", J.str "text"), ("text", J.str "hi ")],
      J.obj [("type", J.str "tool_use")],
      J.obj [("type", J.str "text"), ("text", J.str "there")]] rfl rfl (by decide)⟩

/- ===================== C2: Anthropic message normalization ===================== -/

/-- The collapse loop agrees with `List.destutter'` on the role-difference
relation: the anchor element is emitted first and only its role matters. -/
lemma collapse_destutter (l : List Clippy.ChatMsg) (m : Clippy.ChatMsg) :
    List.destutter' (fun a b => a.role ≠ b.role) m l =
      m :: collapseAux (some m.role) l := by
  induction l generalizing m with
  | nil => rfl
  | cons b t ih =>
    by_cases h : m.role = b.role
    · rw [List.destutter'_cons_neg t (by simpa using h), collapseAux,
        if_neg (by simp [h]), ih m]
    · have h2 : b.role ≠ m.role := fun e => h e.symm
      rw [List.destutter'_cons_pos t (by simpa using h), collapseAux,
        if_pos (by simpa using h2), ih b]

/-- The collapse loop produces a sublist of its input. -/
lemma collapseAux_sublist : ∀ (r : Option String) (l : List Clippy.ChatMsg),
    List.Sublist (collapseAux r l) l := by
  intro r l
  induction l generalizing r with
  | nil => simp [collapseAux]
  | cons b t ih =>
    rw [collapseAux]
    by_cases h : some b.role ≠ r
    · rw [if_pos h]
      exact (ih (some b.role)).cons₂ b
    · rw [if_neg h]
      exact (ih r).cons b

/-- A nonempty `dropWhile` result starts with an element refuting the predicate. -/
lemma dropWhile_head_neg {α : Type} (p : α → Bool) :
    ∀ (l : List α) (b : α) (t : List α), l.dropWhile p = b :: t → p b = false := by
  intro l
  induction l with
  | nil => intro b t h; simp [List.dropWhile] at h
  | cons x xs ih =>
    intro b t h
    rw [List.dropWhile_cons] at h
    by_cases hx : p x = true
    · rw [if_pos hx] at h
      exact ih b t h
    · rw [if_neg hx] at h
      cases h
      simpa using hx

/-- C2: the Anthropic-shaped `messages` normalization keeps only
user/assistant roles, drops leading assistant turns, collapses every run of
consecutive same-role turns to its first element (it equals `List.destutter`
over the role-difference relation), yields a strictly alternating list, and
never starts with an assistant turn. -/
theorem c2_anthropic_messages (messages : List Clippy.ChatMsg) :
    anthropicValid messages =
      ((messages.filter fun m => m.role == "user" || m.role == "assistant").dropWhile
        fun m => m.role == "assistant").destutter (fun a b => a.role ≠ b.role) ∧
    (∀ m ∈ anthropicValid messages, m.role = "user" ∨ m.role = "assistant") ∧
    List.Chain' (fun a b => a.role ≠ b.role) (anthropicValid messages) ∧
    (∀ m, (anthropicValid messages).head? = some m → m.role = "user") := by
  have hdes : anthropicValid messages =
      ((messages.filter fun m => m.role == "user" || m.role == "assistant").dropWhile
        fun m => m.role == "assistant").destutter (fun a b => a.role ≠ b.role) := by
    rw [anthropicValid]
    cases hdw : (messages.filter fun m => m.role == "user" || m.role == "assistant").dropWhile
        fun m => m.role == "assistant" with
    | nil => rfl
    | cons b t =>
      rw [List.destutter_cons', collapse_destutter, collapseAux, if_pos (by simp)]
  refine ⟨hdes, fun m hm => ?_, ?_, fun m hm => ?_⟩
  · have hsub : List.Sublist (anthropicValid messages)
        (messages.filter fun m => m.role == "user" || m.role == "assistant") :=
      (collapseAux_sublist none _).trans (List.dropWhile_sublist _)
    have h1 := hsub.subset hm
    have h2 := (List.mem_filter.mp h1).2
    simpa using h2
  · rw [hdes]
    exact List.destutter_is_chain' _ _
  · cases hdw : (messages.filter fun m => m.role == "user" || m.role == "assistant").dropWhile
        fun m => m.role == "assistant" with
    | nil =>
      rw [anthropicValid, hdw] at hm
      simp [collapseAux] at hm
    | cons b t =>
      rw [anthropicValid, hdw, collapseAux, if_pos (by simp)] at hm
      rw [List.head?_cons, Option.some.injEq] at hm
      subst hm
      have hnb := dropWhile_head_neg _ _ _ _ hdw
      have hbm : b ∈ (messages.filter fun x => x.role == "user" || x.role == "assistant") := by
        have hmem : b ∈ b :: t := List.mem_cons_self b t
        rw [← hdw] at hmem
        exact (List.dropWhile_sublist _).subset hmem
      have hrole := (List.mem_filter.mp hbm).2
      rw [Bool.or_eq_true, beq_iff_eq, beq_iff_eq] at hrole
      rcases hrole with h | h
      · exact h
      · rw [beq_eq_false_iff_ne] at hnb
        exact absurd h hnb

/-- C2 witness: the normalization evaluated on the spec's example
`[system, user, assistant, assistant, user]`. -/
theorem c2_anthropic_messages_witness :
    List.Chain' (fun a b => a.role ≠ b.role)
      (anthropicValid [⟨"system", "s"⟩, ⟨"user", "u1"⟩, ⟨"assistant", "a1"⟩,
        ⟨"assistant", "a2"⟩, ⟨"user", "u2"⟩]) ∧
    anthropicValid [⟨"system", "s"⟩, ⟨"user", "u1"⟩, ⟨"assistant", "a1"⟩,
        ⟨"assistant", "a2"⟩, ⟨"user", "u2"⟩] =
      [⟨"user", "u1"⟩, ⟨"assistant", "a1"⟩, ⟨"user", "u2"⟩] :=
  ⟨(c2_anthropic_messages _).2.2.1, by decide⟩

/- ===================== C7 / C9: unpack entry handling ===================== -/

/-- Processing one entry never changes the set of directories. -/
lemma processEntry_dirs (st : UFS) (e : String × String) :
    (processEntry st e).1.dirs = st.dirs := by
  simp only [processEntry]
  repeat' split
  all_goals rfl

/-- Processing any entry list never changes the set of directories. -/
lemma unpack_entries_dirs : ∀ (es : List (String × String)) (st : UFS),
    (unpack_entries st es).1.dirs = st.dirs := by
  intro es
  induction es with
  | nil => intro st; rfl
  | cons e rest ih =>
    intro st
    simp only [unpack_entries]
    rw [ih, processEntry_dirs]

/-- An entry whose computed output directory is missing is skipped with the
directory warning and leaves the filesystem untouched. -/
lemma processEntry_dirMissing (st : UFS) (e : String × String) (outDir : String)
    (h1 : entryOutDir e = some outDir) (h2 : outDir ≠ ".")
    (h3 : pathExists st outDir = false) :
    processEntry st e = (st, [UMsg.dirMissing outDir (pyStrip e.1)]) := by
  simp only [entryOutDir] at h1
  simp only [processEntry]
  by_cases hf : pyStrip e.1 = ""
  · simp [hf] at h1
  · rw [if_neg hf] at h1 ⊢
    cases hg : (cleanComponents (pyStrip e.1)).getLast? with
    | none => rw [hg] at h1; simp at h1
    | some final =>
      rw [hg] at h1
      dsimp only at h1 ⊢
      rw [Option.some.injEq] at h1
      rw [h1, if_pos ⟨h2, h3⟩]

/-- C7: unpack never creates a directory — the directory set is invariant
under a whole unpack run on any archive — and an entry whose computed output
directory is not `.` and does not exist is skipped with a warning naming the
entry, after which processing continues with the remaining entries. -/
theorem c7_unpack_never_creates_dirs (st : UFS) (e : String × String)
    (es : List (String × String)) (outDir : String)
    (h1 : entryOutDir e = some outDir) (h2 : outDir ≠ ".")
    (h3 : pathExists st outDir = false) :
    (∀ (st' : UFS) (content : String),
      (unpack_file_model st' content).1.dirs = st'.dirs) ∧
    processEntry st e = (st, [UMsg.dirMissing outDir (pyStrip e.1)]) ∧
    unpack_entries st (e :: es) =
      ((unpack_entries st es).1,
        UMsg.dirMissing outDir (pyStrip e.1) :: (unpack_entries st es).2) := by
  have hpe := processEntry_dirMissing st e outDir h1 h2 h3
  refine ⟨fun st' content => unpack_entries_dirs _ st', hpe, ?_⟩
  simp only [unpack_entries, hpe]
  simp

/-- C7 witness: a concrete entry aimed at a non-existing directory is skipped
with the warning while the next entry is still processed. -/
theorem c7_unpack_never_creates_dirs_witness :
    processEntry ⟨[], []⟩ ("sub/f.txt", "x") =
      (⟨[], []⟩, [UMsg.dirMissing "sub" "sub/f.txt"]) ∧
    unpack_entries ⟨[], []⟩ [("sub/f.txt", "x"), ("g.txt", "y")] =
      ((unpack_entries ⟨[], []⟩ [("g.txt", "y")]).1,
        UMsg.dirMissing "sub" "sub/f.txt" ::
          (unpack_entries ⟨[], []⟩ [("g.txt", "y")]).2) :=
  ⟨(c7_unpack_never_creates_dirs ⟨[], []⟩ ("sub/f.txt", "x") [("g.txt", "y")] "sub"
      rfl (by decide) rfl).2.1,
   (c7_unpack_never_creates_dirs ⟨[], []⟩ ("sub/f.txt", "x") [("g.txt", "y")] "sub"
      rfl (by decide) rfl).2.2⟩

/-- C9: an entry whose display name has no valid path components left after
splitting and dropping empty, `.` and `..` components (in particular an empty
or all-dots name) is skipped with a warning, produces no output file, and
processing continues with the remaining entries. -/
theorem c9_invalid_display_name (st : UFS) (e : String × String)
    (es : List (String × String)) (h : cleanComponents (pyStrip e.1) = []) :
    processEntry st e =
      (st, [if pyStrip e.1 = "" then UMsg.emptyName
            else UMsg.noComponents (pyStrip e.1)]) ∧
    unpack_entries st (e :: es) =
      ((unpack_entries st es).1,
        (if pyStrip e.1 = "" then UMsg.emptyName
         else UMsg.noComponents (pyStrip e.1)) :: (unpack_entries st es).2) := by
  have hpe : processEntry st e =
      (st, [if pyStrip e.1 = "" then UMsg.emptyName
            else UMsg.noComponents (pyStrip e.1)]) := by
    simp only [processEntry]
    by_cases hf : pyStrip e.1 = ""
    · rw [if_pos hf, if_pos hf]
    · rw [if_neg hf, if_neg hf, h]
      rfl
  refine ⟨hpe, ?_⟩
  simp only [unpack_entries, hpe]
  simp

/-- C9 witness: the all-dots display name `./..` is skipped with the
no-components warning and writes nothing. -/
theorem c9_invalid_display_name_witness :
    processEntry ⟨["d"], [("f", "c")]⟩ ("./..", "data") =
      (⟨["d"], [("f", "c")]⟩, [UMsg.noComponents "./.."]) ∧
    unpack_entries ⟨["d"], [("f", "c")]⟩ [("./..", "data"), ("f", "new")] =
      ((unpack_entries ⟨["d"], [("f", "c")]⟩ [("f", "new")]).1,
        UMsg.noComponents "./.." ::
          (unpack_entries ⟨["d"], [("f", "c")]⟩ [("f", "new")]).2) :=
  ⟨(c9_invalid_display_name ⟨["d"], [("f", "c")]⟩ ("./..", "data") [("f", "new")] rfl).1,
   (c9_invalid_display_name ⟨["d"], [("f", "c")]⟩ ("./..", "data") [("f", "new")] rfl).2⟩

/- ===================== C8: scaninc emission ===================== -/

/-- The entry component of the include-processing loop is exactly the
spec-side emission: referenced files in first-appearance order, skipping
already-emitted resolved paths and missing files. -/
lemma processIncludes_eq_spec (fs : String → Option String)
    (abspath : String → String) : ∀ (incs seen : List String),
    (processIncludes fs abspath incs seen).1 = specPackEntries fs abspath incs seen := by
  intro incs
  induction incs with
  | nil => intro seen; rfl
  | cons p ps ih =>
    intro seen
    by_cases hmem : abspath p ∈ seen
    · simp only [processIncludes, specPackEntries, if_pos hmem, ih]
    · cases hfs : fs (abspath p) with
      | none => simp only [processIncludes, specPackEntries, if_neg hmem, hfs, ih]
      | some c => simp only [processIncludes, specPackEntries, if_neg hmem, hfs, ih]

/-- Invariants of the include-processing loop: emitted names form a sublist
of the scanned includes (order preserved), no already-seen resolved path is
ever re-emitted, emitted resolved paths are pairwise distinct, every emitted
entry carries the content the filesystem holds for its resolved path, every
unreadable include leaves a not-found warning, and every readable include is
represented: its resolved path was already seen or gets emitted. -/
lemma processIncludes_spec (fs : String → Option String) (abspath : String → String) :
    ∀ (incs : List String) (seen : List String),
      (∀ a ∈ seen, fs a ≠ none) →
      List.Sublist ((processIncludes fs abspath incs seen).1.map Prod.fst) incs ∧
      (∀ a ∈ seen,
        a ∉ (processIncludes fs abspath incs seen).1.map fun pc => abspath pc.1) ∧
      ((processIncludes fs abspath incs seen).1.map fun pc => abspath pc.1).Nodup ∧
      (∀ pc ∈ (processIncludes fs abspath incs seen).1,
        fs (abspath pc.1) = some pc.2) ∧
      (∀ p ∈ incs, fs (abspath p) = none →
        ScanWarn.notFound (abspath p) ∈ (processIncludes fs abspath incs seen).2) ∧
      (∀ p ∈ incs, ∀ c, fs (abspath p) = some c → abspath p ∈ seen ∨
        abspath p ∈ (processIncludes fs abspath incs seen).1.map fun pc => abspath pc.1) := by
  intro incs
  induction incs with
  | nil =>
    intro seen hseen
    simp [processIncludes]
  | cons p ps ih =>
    intro seen hseen
    by_cases hmem : abspath p ∈ seen
    · have hrec := ih seen hseen
      simp only [processIncludes, if_pos hmem]
      refine ⟨hrec.1.cons p, hrec.2.1, hrec.2.2.1, hrec.2.2.2.1, ?_, ?_⟩
      · intro q hq hfsq
        rcases List.mem_cons.mp hq with rfl | hq
        · exact absurd hfsq (hseen _ hmem)
        · exact List.mem_cons_of_mem _ (hrec.2.2.2.2.1 q hq hfsq)
      · intro q hq c hfsq
        rcases List.mem_cons.mp hq with rfl | hq
        · exact Or.inl hmem
        · exact hrec.2.2.2.2.2 q hq c hfsq
    · cases hfs : fs (abspath p) with
      | none =>
        have hrec := ih seen hseen
        simp only [processIncludes, if_neg hmem, hfs]
        refine ⟨hrec.1.cons p, hrec.2.1, hrec.2.2.1, hrec.2.2.2.1, ?_, ?_⟩
        · intro q hq hfsq
          rcases List.mem_cons.mp hq with rfl | hq
          · exact List.mem_cons_self _ _
          · exact List.mem_cons_of_mem _ (hrec.2.2.2.2.1 q hq hfsq)
        · intro q hq c hfsq
          rcases List.mem_cons.mp hq with rfl | hq
          · rw [hfs] at hfsq; exact Option.noConfusion hfsq
          · exact hrec.2.2.2.2.2 q hq c hfsq
      | some c =>
        have hseen2 : ∀ a ∈ abspath p :: seen, fs a ≠ none := by
          intro a ha
          rcases List.mem_cons.mp ha with rfl | ha
          · rw [hfs]; exact fun hc => Option.noConfusion hc
          · exact hseen a ha
        have hrec := ih (abspath p :: seen) hseen2
        simp only [processIncludes, if_neg hmem, hfs]
        refine ⟨?_, ?_, ?_, ?_, ?_, ?_⟩
        · exact hrec.1.cons₂ p
        · intro a ha
          simp only [List.map_cons, List.mem_cons]
          rintro (rfl | hin)
          · exact hmem ha
          · exact hrec.2.1 a (List.mem_cons_of_mem _ ha) hin
        · simp only [List.map_cons, List.nodup_cons]
          exact ⟨hrec.2.1 (abspath p) (List.mem_cons_self _ _), hrec.2.2.1⟩
        · intro pc hpc
          rcases List.mem_cons.mp hpc with rfl | hpc
          · exact hfs
          · exact hrec.2.2.2.1 pc hpc
        · intro q hq hfsq
          rcases List.mem_cons.mp hq with rfl | hq
          · rw [hfs] at hfsq; exact Option.noConfusion hfsq
          · exact hrec.2.2.2.2.1 q hq hfsq
        · intro q hq cq hfsq
          rcases List.mem_cons.mp hq with rfl | hq
          · exact Or.inr (by simp)
          · rcases hrec.2.2.2.2.2 q hq cq hfsq with hl | hr
            · rcases List.mem_cons.mp hl with heq | hl
              · exact Or.inr (by simp [heq])
              · exact Or.inl hl
            · exact Or.inr (List.mem_cons_of_mem _ hr)

/-- C8: for a readable root file the archive entries are exactly the root
file first, followed by the referenced files in the order their include
directives first appear, where a referenced path whose resolved absolute
path was already emitted (the root included) is skipped and a missing
referenced file is omitted (`specPackEntries`, stated from the spec's
words); additionally, resolved absolute paths are never emitted twice, every
readable referenced path does get its resolved path emitted, every emitted
entry carries the content on disk, and a missing referenced file leaves a
not-found warning without aborting the run. -/
theorem c8_pack_emission (fs : String → Option String) (abspath : String → String)
    (root : String) (rc : String) (h : fs (abspath root) = some rc) :
    ∃ parts warns, scaninc_main fs abspath root = some (parts, warns) ∧
      parts = (root, rc) ::
        specPackEntries fs abspath (extract_non_system_includes rc) [abspath root] ∧
      parts.head? = some (root, rc) ∧
      List.Sublist (parts.tail.map Prod.fst) (extract_non_system_includes rc) ∧
      (parts.map fun pc => abspath pc.1).Nodup ∧
      (∀ pc ∈ parts, fs (abspath pc.1) = some pc.2) ∧
      (∀ p ∈ extract_non_system_includes rc, ∀ c, fs (abspath p) = some c →
        abspath p ∈ parts.map fun pc => abspath pc.1) ∧
      (∀ p ∈ extract_non_system_includes rc, fs (abspath p) = none →
        ScanWarn.notFound (abspath p) ∈ warns ∧
          (abspath p) ∉ parts.map fun pc => abspath pc.1) := by
  have hseen : ∀ a ∈ [abspath root], fs a ≠ none := by
    intro a ha
    rw [List.mem_singleton] at ha
    subst ha
    rw [h]
    exact fun hc => Option.noConfusion hc
  have hrec := processIncludes_spec fs abspath (extract_non_system_includes rc)
    [abspath root] hseen
  refine ⟨(root, rc) ::
      (processIncludes fs abspath (extract_non_system_includes rc) [abspath root]).1,
    (processIncludes fs abspath (extract_non_system_includes rc) [abspath root]).2,
    ?_, ?_, rfl, ?_, ?_, ?_, ?_, ?_⟩
  · rw [scaninc_main, h]
  · rw [processIncludes_eq_spec]
  · exact hrec.1
  · simp only [List.map_cons, List.nodup_cons]
    exact ⟨hrec.2.1 (abspath root) (List.mem_singleton_self _), hrec.2.2.1⟩
  · intro pc hpc
    rcases List.mem_cons.mp hpc with rfl | hpc
    · exact h
    · exact hrec.2.2.2.1 pc hpc
  · intro p hp c hfsp
    rcases hrec.2.2.2.2.2 p hp c hfsp with hl | hr
    · rw [List.mem_singleton] at hl
      simp [hl]
    · exact List.mem_cons_of_mem _ hr
  · intro p hp hfsp
    refine ⟨hrec.2.2.2.2.1 p hp hfsp, ?_⟩
    simp only [List.map_cons, List.mem_cons]
    rintro (heq | hin)
    · rw [heq, h] at hfsp
      exact Option.noConfusion hfsp
    · rcases List.mem_map.mp hin with ⟨pc, hpc, hpceq⟩
      have := hrec.2.2.2.1 pc hpc
      rw [hpceq, hfsp] at this
      exact Option.noConfusion this

/-- C8 witness: a concrete pack run with one missing include (`x.h`), one
readable include (`y.h`) and a duplicate directive for it. -/
theorem c8_pack_emission_witness :
    ∃ parts warns,
      scaninc_main
        (fun p =>
          if p = "main.c" then
            some "#include \"x.h\"\n#include \"y.h\"\n#include \"y.h\"\n"
          else if p = "y.h" then some "int y;\n" else none)
        id "main.c" = some (parts, warns) ∧
      parts = ("main.c",
          "#include \"x.h\"\n#include \"y.h\"\n#include \"y.h\"\n") ::
        specPackEntries
          (fun p =>
            if p = "main.c" then
              some "#include \"x.h\"\n#include \"y.h\"\n#include \"y.h\"\n"
            else if p = "y.h" then some "int y;\n" else none)
          id
          (extract_non_system_includes
            "#include \"x.h\"\n#include \"y.h\"\n#include \"y.h\"\n")
          [id "main.c"] ∧
      parts.head? = some ("main.c",
        "#include \"x.h\"\n#include \"y.h\"\n#include \"y.h\"\n") ∧
      List.Sublist (parts.tail.map Prod.fst)
        (extract_non_system_includes
          "#include \"x.h\"\n#include \"y.h\"\n#include \"y.h\"\n") ∧
      (parts.map fun pc => id pc.1).Nodup ∧
      (∀ pc ∈ parts,
        (fun p =>
          if p = "main.c" then
            some "#include \"x.h\"\n#include \"y.h\"\n#include \"y.h\"\n"
          else if p = "y.h" then some "int y;\n" else none) (id pc.1) = some pc.2) ∧
      (∀ p ∈ extract_non_system_includes
          "#include \"x.h\"\n#include \"y.h\"\n#include \"y.h\"\n",
        ∀ c,
        (fun p =>
          if p = "main.c" then
            some "#include \"x.h\"\n#include \"y.h\"\n#include \"y.h\"\n"
          else if p = "y.h" then some "int y;\n" else none) (id p) = some c →
        (id p) ∈ parts.map fun pc => id pc.1) ∧
      (∀ p ∈ extract_non_system_includes
          "#include \"x.h\"\n#include \"y.h\"\n#include \"y.h\"\n",
        (fun p =>
          if p = "main.c" then
            some "#include \"x.h\"\n#include \"y.h\"\n#include \"y.h\"\n"
          else if p = "y.h" then some "int y;\n" else none) (id p) = none →
        ScanWarn.notFound (id p) ∈ warns ∧
          (id p) ∉ parts.map fun pc => id pc.1) :=
  c8_pack_emission
    (fun p =>
      if p = "main.c" then
        some "#include \"x.h\"\n#include \"y.h\"\n#include \"y.h\"\n"
      else if p = "y.h" then some "int y;\n" else none)
    id "main.c" "#include \"x.h\"\n#include \"y.h\"\n#include \"y.h\"\n" rfl

/- ===================== C1: pack/unpack round trip ===================== -/

/-- `takeWhile` over an append stops inside the left part when that part has
a refuting element. -/
lemma takeWhile_append_of_ne (p : Char → Bool) :
    ∀ (l₁ l₂ : List Char), l₁.any (fun x => !p x) = true →
      (l₁ ++ l₂).takeWhile p = l₁.takeWhile p := by
  intro l₁
  induction l₁ with
  | nil => intro l₂ h; simp at h
  | cons c t ih =>
    intro l₂ h
    by_cases hc : p c = true
    · rw [List.cons_append, List.takeWhile_cons_of_pos hc,
        List.takeWhile_cons_of_pos hc]
      rw [List.any_cons, Bool.or_eq_true] at h
      rcases h with h | h
      · rw [hc] at h; simp at h
      · rw [ih l₂ h]
    · rw [List.cons_append, List.takeWhile_cons_of_neg (by simpa using hc),
        List.takeWhile_cons_of_neg (by simpa using hc)]

/-- The greedy `\s*\n` match fails when the leading whitespace run holds no
newline. -/
lemma runConsume_eq_none : ∀ (l : List Char),
    ((l.takeWhile isPyWs).all fun x => !(x = '\n')) = true → runConsume l = none := by
  intro l
  induction l with
  | nil => intro _; rfl
  | cons c rest ih =>
    intro h
    rw [runConsume]
    by_cases hc : isPyWs c = true
    · rw [List.takeWhile_cons_of_pos hc, List.all_cons, Bool.and_eq_true] at h
      rw [if_pos hc, ih h.2]
      have hcn : ¬(c = '\n') := by simpa using h.1
      rw [if_neg hcn]
    · rw [if_neg hc]

/-- The greedy `\s*\n` match right at a newline consumes exactly it when the
following run holds no further newline. -/
lemma runConsume_nl (l : List Char) (h : runConsume l = none) :
    runConsume ('\n' :: l) = some l := by
  rw [runConsume, if_pos (by decide), h]
  rw [if_pos rfl]

/-- The lazy name group captures a good name verbatim and stops exactly at
the header newline. -/
lemma tryName_good : ∀ (n rest : List Char),
    (n.all fun c => !(c = '>' ∨ c = '\n')) = true →
    (match n.getLast? with | some c => !isPyWs c | none => false) = true →
    runConsume rest = none →
    tryName (n ++ '\n' :: rest) = some (n, rest) := by
  intro n
  induction n with
  | nil => intro rest _ hlast _; simp at hlast
  | cons d ds ih =>
    intro rest hall hlast hrc
    rw [List.all_cons, Bool.and_eq_true] at hall
    have hnot : ¬(d = '>' ∨ d = '\n') := by simpa using hall.1
    have hd : ¬(d = '>') := fun hc => hnot (Or.inl hc)
    cases ds with
    | nil =>
      show tryName (d :: '\n' :: rest) = some ([d], rest)
      rw [tryName, if_neg hd, runConsume_nl rest hrc]
    | cons e es =>
      have hlast2 : (match (e :: es).getLast? with
          | some c => !isPyWs c | none => false) = true := by
        rw [List.getLast?_cons_cons] at hlast
        exact hlast
      have hany : (e :: es).any (fun x => !isPyWs x) = true := by
        cases hg : (e :: es).getLast? with
        | none => simp at hg
        | some c =>
          rw [hg] at hlast2
          exact List.any_eq_true.mpr ⟨c, List.mem_of_getLast?_eq_some hg, hlast2⟩
      have hrc2 : runConsume ((e :: es) ++ '\n' :: rest) = none := by
        apply runConsume_eq_none
        rw [takeWhile_append_of_ne isPyWs (e :: es) ('\n' :: rest) hany]
        rw [List.all_eq_true]
        intro x hx
        have hxm := List.takeWhile_subset isPyWs hx
        have := (List.all_eq_true.mp hall.2) x hxm
        simp only [Bool.not_eq_true'] at this ⊢
        rw [decide_eq_false_iff_not] at this ⊢
        exact fun hc => this (Or.inr hc)
      rw [List.cons_append, tryName, if_neg hd, hrc2,
        ih rest hall.2 hlast2 hrc]

/-- The header regex `\s*([^>]+?)\s*\n` matches a good name exactly. -/
lemma matchHeader_good (n rest : List Char) (hn : goodNameB n = true)
    (hrc : runConsume rest = none) :
    matchHeader (n ++ '\n' :: rest) = some (n, rest) := by
  rw [goodNameB, Bool.and_eq_true, Bool.and_eq_true, Bool.and_eq_true] at hn
  obtain ⟨⟨⟨hne, hall⟩, hhead⟩, hlast⟩ := hn
  cases n with
  | nil => simp at hne
  | cons d ds =>
    rw [List.head?_cons] at hhead
    rw [matchHeader, List.cons_append,
      List.takeWhile_cons_of_neg (by simpa using hhead)]
    exact tryName_good (d :: ds) rest hall hlast hrc

/-- Extending a list whose 4-prefix is not the marker with a newline-headed
suffix still cannot produce the marker as 4-prefix. -/
lemma take4_append_nl_ne_mark : ∀ (c : List Char) (s : List Char),
    c.take 4 ≠ mark → (c ++ '\n' :: s).take 4 ≠ mark := by
  intro c s h
  match c with
  | [] => intro heq; rw [List.nil_append] at heq; simp [mark, List.take] at heq
  | [a] => intro heq; simp [mark, List.take] at heq
  | [a, b] => intro heq; simp [mark, List.take] at heq
  | [a, b, d] => intro heq; simp [mark, List.take] at heq
  | a :: b :: d :: e :: t =>
    intro heq
    apply h
    rw [List.cons_append, List.cons_append, List.cons_append, List.cons_append] at heq
    simp only [List.take_succ_cons, List.take_zero] at heq ⊢
    exact heq

/-- Content free of embedded markers is consumed whole by the lazy content
group when nothing follows. -/
lemma splitContent_no_mark : ∀ (l : List Char), hasNlMark l = false →
    splitContent l = (l, []) := by
  intro l
  induction l with
  | nil => intro _; rfl
  | cons c rest ih =>
    intro h
    rw [hasNlMark] at h
    by_cases hc : c = '\n' ∧ rest.take 4 = mark
    · rw [if_pos hc] at h; exact absurd h (by simp)
    · rw [if_neg hc] at h
      rw [splitContent, if_neg hc, ih h]

/-- The lazy content group stops exactly at the first newline followed by the
marker. -/
lemma splitContent_mark : ∀ (c s : List Char), hasNlMark c = false →
    splitContent (c ++ '\n' :: (mark ++ s)) = (c, '\n' :: (mark ++ s)) := by
  intro c
  induction c with
  | nil =>
    intro s _
    rw [List.nil_append, splitContent,
      if_pos ⟨rfl, List.take_left' rfl⟩]
  | cons x c' ih =>
    intro s h
    rw [hasNlMark] at h
    by_cases hx : x = '\n' ∧ c'.take 4 = mark
    · rw [if_pos hx] at h; exact absurd h (by simp)
    · rw [if_neg hx] at h
      rw [List.cons_append, splitContent]
      have hcond : ¬(x = '\n' ∧ (c' ++ '\n' :: (mark ++ s)).take 4 = mark) := by
        rintro ⟨hx1, hx2⟩
        by_cases h4 : c'.take 4 = mark
        · exact hx ⟨hx1, h4⟩
        · exact take4_append_nl_ne_mark c' (mark ++ s) h4 hx2
      rw [if_neg hcond, ih s h]

/-- Appending a final newline to marker-free content keeps it marker-free. -/
lemma hasNlMark_append_nl : ∀ (l : List Char), hasNlMark l = false →
    hasNlMark (l ++ ['\n']) = false := by
  intro l
  induction l with
  | nil => intro _; decide
  | cons c rest ih =>
    intro h
    rw [hasNlMark] at h
    by_cases hc : c = '\n' ∧ rest.take 4 = mark
    · rw [if_pos hc] at h; exact absurd h (by simp)
    · rw [if_neg hc] at h
      rw [List.cons_append, hasNlMark]
      have hcond : ¬(c = '\n' ∧ (rest ++ ['\n']).take 4 = mark) := by
        rintro ⟨hc1, hc2⟩
        by_cases h4 : rest.take 4 = mark
        · exact hc ⟨hc1, h4⟩
        · exact take4_append_nl_ne_mark rest [] h4 (by simpa using hc2)
      rw [if_neg hcond, ih h]

/-- The parser consumes an entry exactly when the input starts with the
marker and the header matches. -/
lemma parseEntriesF_mark (f : Nat) (l cap after : List Char)
    (h : matchHeader l = some (cap, after)) :
    parseEntriesF (f + 1) (mark ++ l) =
      (cap, (splitContent after).1) :: parseEntriesF f (splitContent after).2 := by
  show parseEntriesF (f + 1) ('>' :: '>' :: '>' :: '>' :: l) = _
  rw [parseEntriesF]
  simp only [List.take_succ_cons, List.take_zero, List.drop_succ_cons, List.drop_zero]
  rw [if_pos (show ('>' : Char) :: '>' :: '>' :: '>' :: [] = mark from rfl), h]

/-- The scan advances over a newline that does not start a marker line. -/
lemma parseEntriesF_skip_nl (f : Nat) (l : List Char) :
    parseEntriesF (f + 1) ('\n' :: l) = parseEntriesF f l := by
  rw [parseEntriesF]
  rw [if_neg (by simp [List.take_succ_cons, mark])]

/-- The parser yields nothing on empty input, whatever the fuel. -/
lemma parseEntriesF_nil : ∀ f : Nat, parseEntriesF f [] = [] := by
  intro f
  cases f <;> rfl

/-- Unfolding of `joinParts` on two or more parts. -/
lemma joinParts_cons₂ (p q : List Char × List Char) (qs : List (List Char × List Char)) :
    joinParts (p :: q :: qs) = renderPartL p ++ '\n' :: joinParts (q :: qs) := rfl

/-- The archive of two or more parts is the first rendered part, a separating
newline, and the archive of the remaining parts. -/
lemma renderL_cons₂ (p q : List Char × List Char) (qs : List (List Char × List Char)) :
    renderL (p :: q :: qs) = renderPartL p ++ '\n' :: renderL (q :: qs) := by
  rw [renderL, renderL, List.getLast?_cons_cons]
  cases hl : (q :: qs).getLast? with
  | none => simp at hl
  | some lastP =>
    dsimp only
    by_cases hend : partEndsNl lastP = true
    · rw [if_pos hend, if_pos hend, joinParts_cons₂]
    · rw [if_neg hend, if_neg hend, joinParts_cons₂]
      simp [List.append_assoc]

/-- A nonempty archive starts with the marker. -/
lemma renderL_cons_mark (q : List Char × List Char) (qs : List (List Char × List Char)) :
    ∃ w, renderL (q :: qs) = mark ++ w := by
  cases qs with
  | nil =>
    rw [renderL]
    rw [show ([q] : List (List Char × List Char)).getLast? = some q from rfl]
    dsimp only
    by_cases hend : partEndsNl q = true
    · exact ⟨q.1 ++ '\n' :: q.2, by rw [if_pos hend]; rfl⟩
    · refine ⟨(q.1 ++ '\n' :: q.2) ++ ['\n'], ?_⟩
      rw [if_neg hend]
      simp [joinParts, renderPartL, List.append_assoc]
  | cons r rs =>
    refine ⟨(q.1 ++ '\n' :: q.2) ++ '\n' :: renderL (r :: rs), ?_⟩
    rw [renderL_cons₂]
    simp [renderPartL, List.append_assoc]

/-- Good content blocks the greedy header whitespace from crossing into it. -/
lemma runConsume_content (c : List Char) (hc : goodContentB c = true)
    (t : List Char) : runConsume (c ++ t) = none := by
  rw [goodContentB, Bool.and_eq_true, Bool.and_eq_true] at hc
  obtain ⟨⟨_, hws⟩, hany⟩ := hc
  apply runConsume_eq_none
  rw [takeWhile_append_of_ne isPyWs c t hany]
  exact hws

/-- Round trip of the parser over a rendered archive: with good names and
good contents every entry is recovered verbatim, except that the last entry
may gain a trailing newline (the final newline the packer appends). -/
lemma parse_renderL : ∀ (parts : List (List Char × List Char)),
    (∀ p ∈ parts, goodNameB p.1 = true ∧ goodContentB p.2 = true) →
    ∀ fuel, (renderL parts).length + 1 ≤ fuel →
      parseEntriesF fuel (renderL parts) = normalizeLastL parts := by
  intro parts
  induction parts with
  | nil =>
    intro _ fuel hf
    cases fuel with
    | zero => omega
    | succ f => rfl
  | cons p ps ih =>
    intro hg fuel hf
    obtain ⟨hn, hc⟩ := hg p (List.mem_cons_self p ps)
    have hcb := hc
    rw [goodContentB, Bool.and_eq_true, Bool.and_eq_true] at hcb
    obtain ⟨⟨hmrk, hws⟩, hany⟩ := hcb
    have hmrk2 : hasNlMark p.2 = false := by simpa using hmrk
    have hcne : p.2 ≠ [] := by
      intro he
      rw [he] at hany
      simp at hany
    cases ps with
    | nil =>
      by_cases hend : partEndsNl p = true
      · have hren : renderL [p] = mark ++ (p.1 ++ '\n' :: p.2) := by
          rw [renderL]
          rw [show ([p] : List (List Char × List Char)).getLast? = some p from rfl]
          dsimp only
          rw [if_pos hend]
          rfl
        rw [hren] at hf ⊢
        cases fuel with
        | zero => omega
        | succ f =>
          have hrc : runConsume p.2 = none := by
            have := runConsume_content p.2 hc []
            rwa [List.append_nil] at this
          rw [parseEntriesF_mark f _ p.1 p.2 (matchHeader_good _ _ hn hrc)]
          rw [splitContent_no_mark p.2 hmrk2]
          rw [parseEntriesF_nil]
          have hlastnl : p.2.getLast? = some '\n' := by
            rw [partEndsNl, Bool.or_eq_true] at hend
            rcases hend with h | h
            · exact absurd (by simpa using h) hcne
            · exact beq_iff_eq.mp h
          rw [normalizeLastL, ensureNlL, if_pos hlastnl]
      · have hren : renderL [p] = mark ++ (p.1 ++ '\n' :: (p.2 ++ ['\n'])) := by
          rw [renderL]
          rw [show ([p] : List (List Char × List Char)).getLast? = some p from rfl]
          dsimp only
          rw [if_neg hend]
          simp [joinParts, renderPartL, List.append_assoc]
        rw [hren] at hf ⊢
        cases fuel with
        | zero => omega
        | succ f =>
          rw [parseEntriesF_mark f _ p.1 (p.2 ++ ['\n'])
            (matchHeader_good _ _ hn (runConsume_content p.2 hc ['\n']))]
          rw [splitContent_no_mark (p.2 ++ ['\n']) (hasNlMark_append_nl p.2 hmrk2)]
          rw [parseEntriesF_nil]
          have hlastnl : ¬(p.2.getLast? = some '\n') := by
            intro hl
            apply hend
            rw [partEndsNl, Bool.or_eq_true]
            exact Or.inr (beq_iff_eq.mpr hl)
          rw [normalizeLastL, ensureNlL, if_neg hlastnl]
    | cons q qs =>
      obtain ⟨w, hw⟩ := renderL_cons_mark q qs
      have hren : renderL (p :: q :: qs) =
          mark ++ (p.1 ++ '\n' :: (p.2 ++ '\n' :: (mark ++ w))) := by
        rw [renderL_cons₂, hw]
        simp [renderPartL, List.append_assoc]
      rw [hren] at hf ⊢
      cases fuel with
      | zero => omega
      | succ f =>
        rw [parseEntriesF_mark f _ p.1 (p.2 ++ '\n' :: (mark ++ w))
          (matchHeader_good _ _ hn (runConsume_content p.2 hc _))]
        rw [splitContent_mark p.2 w hmrk2]
        cases f with
        | zero =>
          exfalso
          simp [List.length_append, List.length_cons, mark] at hf
        | succ f2 =>
          have hfl : (renderL (q :: qs)).length + 1 ≤ f2 := by
            rw [hw]
            simp only [List.length_append, List.length_cons, mark] at hf ⊢
            simp at hf ⊢
            omega
          rw [parseEntriesF_skip_nl f2 (mark ++ w), ← hw,
            ih (fun r hr => hg r (List.mem_cons_of_mem p hr)) f2 hfl]
          rfl

/-- Transport of the last-entry normalization through the string wrappers. -/
lemma normalizeLast_map : ∀ parts : List (String × String),
    (normalizeLastL (parts.map fun p => (p.1.data, p.2.data))).map
      (fun p => (String.mk p.1, String.mk p.2)) = normalizeLast parts := by
  intro parts
  induction parts with
  | nil => rfl
  | cons p ps ih =>
    cases ps with
    | nil =>
      show [(String.mk p.1.data, String.mk (ensureNlL p.2.data))] = [(p.1, ensureNlS p.2)]
      have : String.mk (ensureNlL p.2.data) = ensureNlS p.2 := by
        rw [ensureNlL, ensureNlS]
        by_cases h : p.2.data.getLast? = some '\n'
        · rw [if_pos h, if_pos h]
        · rw [if_neg h, if_neg h]
          rfl
      rw [this]
    | cons q qs =>
      show (String.mk p.1.data, String.mk p.2.data) ::
          (normalizeLastL ((q :: qs).map fun r => (r.1.data, r.2.data))).map
            (fun r => (String.mk r.1, String.mk r.2)) = (p.1, p.2) :: normalizeLast (q :: qs)
      rw [ih]

/-- C1 counterexample: packing a root file with two distinct include
directives (`a.h`, `b.h`, both readable) and unpacking the archive into a
directory already holding those files does not recover `a.h` byte-identically
modulo one trailing newline: the packed content `"\nX"` comes back as
`"X\n"` — the regex header `\s*\n` absorbs the leading blank line, so bytes
are lost at the front, which no trailing-newline normalization explains. -/
theorem c1_roundtrip_counterexample :
    (match scaninc_main
        (fun p => if p = "r.c" then some "#include \"a.h\"\n#include \"b.h\"\n"
          else if p = "a.h" then some "\nX"
          else if p = "b.h" then some "Y" else none)
        id "r.c" with
     | some r =>
        lookupFile (unpack_entries ⟨[], [("./r.c", ""), ("./a.h", ""), ("./b.h", "")]⟩
          (unpack_parse (renderArchive r.1))).1.files "./a.h"
     | none => none) = some "X\n" ∧
    ¬("X\n" = "\nX" ∨ "X\n" = "\nX" ++ "\n" ∨ ("\nX" : String) = "X\n" ++ "\n") :=
  ⟨by decide, by decide⟩

/-- C1 (amended): an unpack pass over a packed archive recovers, for every
entry, exactly the bytes between one marker and the next — the last entry
possibly gaining the trailing newline the packer appends — provided each
display name is nonempty, free of `'>'` and newlines and of boundary
whitespace, and each entry content has a non-whitespace character, does not
begin with a whitespace run containing a newline, and contains no newline
immediately followed by the marker.  Without those provisos bytes can be
lost, as the counterexample shows. -/
theorem c1_roundtrip_amended (parts : List (String × String))
    (h : ∀ p ∈ parts, goodNameB p.1.data = true ∧ goodContentB p.2.data = true) :
    unpack_parse (renderArchive parts) = normalizeLast parts := by
  have hdata : (renderArchive parts).data =
      renderL (parts.map fun p => (p.1.data, p.2.data)) := rfl
  rw [unpack_parse, hdata]
  rw [parse_renderL (parts.map fun p => (p.1.data, p.2.data))
    (by
      intro r hr
      rcases List.mem_map.mp hr with ⟨p, hp, rfl⟩
      exact h p hp)
    _ (le_refl _)]
  exact normalizeLast_map parts

/-- C1 witness: the amended round trip evaluated on a concrete two-entry
archive (one content with, one without a trailing newline). -/
theorem c1_roundtrip_amended_witness :
    unpack_parse (renderArchive [("r.c", "A\n"), ("a.h", "B")]) =
      normalizeLast [("r.c", "A\n"), ("a.h", "B")] :=
  c1_roundtrip_amended [("r.c", "A\n"), ("a.h", "B")] (by decide)

end Clippy
